import Mathlib

/-! # Rubiqs grader front-end: routing, Dashboard and Modal

A shallow embedding of the four source files of the front-end
(`App.jsx`, `components/Dashboard.jsx`, `components/Grader.jsx`,
`components/Modal.jsx`) together with the properties of the route table, of the
rendered trees and of the modal-visibility state.

A component is a function from its props and hook state to the tree it returns.
Event handlers are kept as values of a type `H` inside the tree, so that a click
can be dispatched on a rendered tree and the handlers it runs can be observed.
-/

namespace Rubiqs

/-! ## Rendered trees -/

/-- What a component returns: `null`, a text child, an element (tag, attributes in
source order, the `onClick` prop if there is one, children), or a fragment. -/
inductive Node (H : Type) where
  | null : Node H
  | text : String → Node H
  | elem : String → List (String × String) → Option H → List (Node H) → Node H
  | frag : List (Node H) → Node H

namespace Node

variable {H : Type}

/-- The tag of an element; `none` for the other kinds of node. -/
def tag : Node H → Option String
  | elem t _ _ _ => some t
  | _ => none

/-- The value of attribute `k` of an element (first occurrence). -/
def attr (k : String) : Node H → Option String
  | elem _ a _ _ => (a.find? (fun kv => kv.1 == k)).map (fun kv => kv.2)
  | _ => none

/-- The `onClick` prop of an element. -/
def onClick : Node H → Option H
  | elem _ _ h _ => h
  | _ => none

/-- The children of an element or of a fragment. -/
def children : Node H → List (Node H)
  | elem _ _ _ cs => cs
  | frag cs => cs
  | _ => []

mutual
/-- Every element of a tree, in document order, the root included. -/
def elements : Node H → List (Node H)
  | null => []
  | text _ => []
  | elem t a h cs => elem t a h cs :: elementsList cs
  | frag cs => elementsList cs
/-- The elements of a list of sibling trees. -/
def elementsList : List (Node H) → List (Node H)
  | [] => []
  | c :: cs => elements c ++ elementsList cs
end

/-- The elements strictly inside a node. -/
def descendants (n : Node H) : List (Node H) :=
  elementsList n.children

mutual
/-- The concatenated text of a tree. -/
def textContent : Node H → String
  | null => ""
  | text s => s
  | elem _ _ _ cs => textContentList cs
  | frag cs => textContentList cs
/-- The concatenated text of a list of sibling trees. -/
def textContentList : List (Node H) → String
  | [] => ""
  | c :: cs => textContent c ++ textContentList cs
end

/-- The elements of a tree that carry `role = r`. -/
def withRole (r : String) (n : Node H) : List (Node H) :=
  n.elements.filter (fun e => e.attr "role" == some r)

/-- The elements of a tree whose `className` is `c`. -/
def withClass (c : String) (n : Node H) : List (Node H) :=
  n.elements.filter (fun e => e.attr "className" == some c)

/-- Heading elements: `h1` to `h6`. -/
def isHeading (n : Node H) : Bool :=
  match n.tag with
  | some t => ["h1", "h2", "h3", "h4", "h5", "h6"].contains t
  | none => false

/-- The heading elements of a tree. -/
def headings (n : Node H) : List (Node H) :=
  n.elements.filter isHeading

/-- The `button` elements of a tree. -/
def buttons (n : Node H) : List (Node H) :=
  n.elements.filter (fun e => e.tag == some "button")

/-- The router `Link` elements of a tree. -/
def links (n : Node H) : List (Node H) :=
  n.elements.filter (fun e => e.tag == some "Link")

/-- The destinations (`to` props) of the links of a tree, in document order. -/
def linkTargets (n : Node H) : List String :=
  n.links.filterMap (attr "to")

/-- Every `onClick` handler attached somewhere in a tree. -/
def handlers (n : Node H) : List H :=
  n.elements.filterMap onClick

mutual
/-- A click on the node reached from the root by the child indices `path`: the
handlers that run, the target's own first and then those of its ancestors
(bubbling). `none` when the path leads to no node. -/
def dispatch : Node H → List Nat → Option (List H)
  | null, _ => none
  | text _, [] => some []
  | text _, _ :: _ => none
  | elem _ _ h _, [] => some h.toList
  | elem _ _ h cs, i :: p => (dispatchList cs i p).map (fun hs => hs ++ h.toList)
  | frag _, [] => some []
  | frag cs, i :: p => dispatchList cs i p
/-- Dispatch into the `i`-th of a list of siblings. -/
def dispatchList : List (Node H) → Nat → List Nat → Option (List H)
  | [], _, _ => none
  | c :: _, 0, p => dispatch c p
  | _ :: cs, i + 1, p => dispatchList cs i p
end

mutual
/-- The node reached from the root by the child indices `path`. -/
def nodeAt : Node H → List Nat → Option (Node H)
  | n, [] => some n
  | elem _ _ _ cs, i :: p => nodeAtList cs i p
  | frag cs, i :: p => nodeAtList cs i p
  | null, _ :: _ => none
  | text _, _ :: _ => none
/-- The node reached inside the `i`-th of a list of siblings. -/
def nodeAtList : List (Node H) → Nat → List Nat → Option (Node H)
  | [], _, _ => none
  | c :: _, 0, p => nodeAt c p
  | _ :: cs, i + 1, p => nodeAtList cs i p
end

end Node

/-- Run handlers that are state updates, in order. -/
def runHandlers {σ : Type} (hs : List (σ → σ)) (s : σ) : σ :=
  hs.foldl (fun acc h => h acc) s

/-- The state after a click at `path` on the tree `n` rendered in state `s`; a click
that hits no node changes nothing. -/
def click {σ : Type} (n : Node (σ → σ)) (path : List Nat) (s : σ) : σ :=
  match n.dispatch path with
  | some hs => runHandlers hs s
  | none => s

/-! ## components/Modal.jsx -/

/-- The component `Modal({ isOpen, onClose })`: `null` when `isOpen` is false, else the
overlay with the dialog. -/
def Modal {H : Type} (isOpen : Bool) (onClose : H) : Node H :=
  if !isOpen then .null
  else
    .elem "div" [("className", "modal-overlay"), ("aria-hidden", toString (!isOpen))] none [
      .elem "div"
        [("className", "modal-content"), ("role", "dialog"), ("aria-modal", "true"),
          ("aria-labelledby", "compassTitle")] none [
        .elem "h2" [("id", "compassTitle")] none [.text "Rubiqs Compass"],
        .elem "p" [] none [.text "Modal content goes here."],
        .elem "button" [] (some onClose) [.text "Close"]]]

/-! ## components/Grader.jsx -/

/-- The component `Grader()`. -/
def Grader {H : Type} : Node H :=
  .elem "div" [] none [
    .elem "h1" [] none [.text "Rubiqs Grader"],
    .elem "p" [] none [.text "This is the grader page."],
    .elem "Link" [("to", "/")] none [.text "Back to Dashboard"]]

/-! ## components/Dashboard.jsx -/

/-- The initial value of the `isModalOpen` state: `useState(false)`. -/
def Dashboard.initial : Bool := false

/-- The setter returned by `useState`, as an update of the `isModalOpen` state. -/
def setModalOpen (v : Bool) : Bool → Bool :=
  fun _ => v

/-- The local constant `hasTool = (tool) => true` of `Dashboard`. -/
def hasTool (_tool : String) : Bool := true

/-- The body of `Dashboard()` with the local constant `hasTool` bound to the given
predicate. `logo` and `graderImg` are the two imported image assets and
`isModalOpen` is the current value of the state hook. -/
def DashboardWith (_hasTool : String → Bool) (logo graderImg : String) (isModalOpen : Bool) :
    Node (Bool → Bool) :=
  .frag [
    .elem "div" [("className", "logo-header")] none [
      .elem "img" [("src", logo), ("alt", "Rubiqs Logo")] none [],
      .elem "div" [("className", "subtitle")] none [
        .text "Mastery Tech for Modern Learners",
        .elem "br" [] none [],
        .text "by Rubiqs Design Studios"]],
    .elem "main"
      [("className", "dashboard-card"), ("role", "main"),
        ("aria-label", "Rubiqs Suite Dashboard")] none [
      .elem "h1" [("className", "dashboard-title")] none [
        .elem "span" [("className", "title-main")] none [.text "RUBIQS SUITE"],
        .elem "span" [("className", "title-sub")] none [.text "DASHBOARD"]],
      .elem "div" [("className", "tile-container")] none [
        .elem "Link"
          [("to", "/grader"), ("className", "tile only-image"),
            ("aria-label", "Rubiqs Grader")] none [
          .elem "img" [("src", graderImg), ("alt", "Rubiqs Grader")] none []]]],
    Modal isModalOpen (setModalOpen false)]

/-- The component `Dashboard()`. -/
def Dashboard (logo graderImg : String) (isModalOpen : Bool) : Node (Bool → Bool) :=
  DashboardWith hasTool logo graderImg isModalOpen

/-- One event on a mounted Dashboard: a click at `path` on its current render. -/
def Dashboard.step (logo graderImg : String) (isModalOpen : Bool) (path : List Nat) : Bool :=
  click (Dashboard logo graderImg isModalOpen) path isModalOpen

/-- The state of a freshly mounted Dashboard after a sequence of clicks. -/
def Dashboard.run (logo graderImg : String) (events : List (List Nat)) : Bool :=
  events.foldl (Dashboard.step logo graderImg) Dashboard.initial

/-! ## App.jsx -/

/-- The page components that `App.jsx` imports. -/
inductive View where
  | Dashboard | Notes | Chat | Math | Speak | Grader | Discussion
  deriving DecidableEq, Repr

/-- The `Route` children of `Routes`, in source order: `path` and the component of
`element`. -/
def routes : List (String × View) :=
  [("/", .Dashboard), ("/notes", .Notes), ("/chat", .Chat), ("/math", .Math),
    ("/speak", .Speak), ("/grader", .Grader), ("/discussion", .Discussion)]

/-- The seven `path` props of the route table. -/
def recognizedPaths : List String :=
  routes.map (fun r => r.1)

/-- Remove every trailing slash. -/
def stripTrailingSlashes (cs : List Char) : List Char :=
  (cs.reverse.dropWhile (fun c => c == '/')).reverse

/-- The router compiles a static route path to a pattern: trailing slashes are
dropped and exactly one leading slash is kept (`compilePath` of react-router, whose
`Routes` and `Route` the source uses, for a path without parameters or splat). -/
def compilePath (path : String) : List Char :=
  '/' :: (stripTrailingSlashes path.toList).dropWhile (fun c => c == '/')

/-- Match a decoded pathname against a compiled pattern, as the regular expression
`^pattern\/*$` with the ignore-case flag does: the pattern's characters up to letter
case, then any number of slashes up to the end. -/
def matchesFrom : List Char → List Char → Bool
  | [], rest => rest.all (fun c => c == '/')
  | _ :: _, [] => false
  | d :: ds, c :: cs => c.toUpper == d.toUpper && matchesFrom ds cs

/-- Whether a route path matches a location pathname (`matchPath` with the defaults
`caseSensitive = false` and `end = true`, which `Route` gets when neither prop is
given). -/
def matchPath (path pathname : String) : Bool :=
  matchesFrom (compilePath path) pathname.toList

/-- The value of a hexadecimal digit. -/
def hexDigit (c : Char) : Option Nat :=
  if '0' ≤ c ∧ c ≤ '9' then some (c.toNat - 48)
  else if 'a' ≤ c ∧ c ≤ 'f' then some (c.toNat - 87)
  else if 'A' ≤ c ∧ c ≤ 'F' then some (c.toNat - 55)
  else none

/-- The octet written by two hexadecimal digits. -/
def parseHexOctet (a b : Char) : Option Nat :=
  match hexDigit a, hexDigit b with
  | some x, some y => some (16 * x + y)
  | _, _ => none

/-- Whether `v`, read from a UTF-8 sequence whose shortest code point is `least`, is
a validly encoded code point: not overlong, not a surrogate, at most `0x10FFFF`. -/
def validCodePoint (least v : Nat) : Bool :=
  decide (least ≤ v) && !(decide (0xD800 ≤ v) && decide (v ≤ 0xDFFF)) && decide (v ≤ 0x10FFFF)

/-- The characters a decoded code point contributes to a path segment: a decoded
slash is written back as `%2F`. -/
def decodedChars (v : Nat) : List Char :=
  if v = 0x2F then ['%', '2', 'F'] else [Char.ofNat v]

mutual
/-- The function `decodeURIComponent` on the characters of a segment; `none` where
it throws (a `%` without two hexadecimal digits, or octets that are not UTF-8). -/
def decodeURIComponent : List Char → Option (List Char)
  | [] => some []
  | c :: rest =>
    if c = '%' then
      match rest with
      | a :: b :: cs =>
        match parseHexOctet a b with
        | none => none
        | some o =>
          if o < 0x80 then (decodeURIComponent cs).map (fun r => decodedChars o ++ r)
          else if o < 0xC0 then none
          else if o < 0xE0 then decodeContinuation 0 (o - 0xC0) 0x80 cs
          else if o < 0xF0 then decodeContinuation 1 (o - 0xE0) 0x800 cs
          else if o < 0xF8 then decodeContinuation 2 (o - 0xF0) 0x10000 cs
          else none
      | _ => none
    else (decodeURIComponent rest).map (fun r => c :: r)
/-- The continuation octets of a multi-byte sequence: `more` further ones after the
next, `acc` the bits read so far. -/
def decodeContinuation (more acc least : Nat) : List Char → Option (List Char)
  | [] => none
  | c :: rest =>
    if c = '%' then
      match rest with
      | a :: b :: cs =>
        match parseHexOctet a b with
        | none => none
        | some o =>
          if 0x80 ≤ o ∧ o < 0xC0 then
            match more with
            | 0 =>
              if validCodePoint least (64 * acc + (o - 0x80)) then
                (decodeURIComponent cs).map (fun r => decodedChars (64 * acc + (o - 0x80)) ++ r)
              else none
            | m + 1 => decodeContinuation m (64 * acc + (o - 0x80)) least cs
          else none
      | _ => none
    else none
end

/-- Decode a pathname segment by segment: the segments between slashes are decoded
and joined by slashes again; `none` where a segment fails to decode. The first
argument holds the characters of the current segment read so far, last one first. -/
def decodeSegments : List Char → List Char → Option (List Char)
  | seg, [] => decodeURIComponent seg.reverse
  | seg, c :: cs =>
    if c = '/' then
      match decodeURIComponent seg.reverse, decodeSegments [] cs with
      | some d, some r => some (d ++ '/' :: r)
      | _, _ => none
    else decodeSegments (c :: seg) cs

/-- The router's `decodePath`, applied to the location pathname before it is matched:
the pathname is split at its slashes, each segment goes through
`decodeURIComponent`, a slash that a segment decodes to is written back as `%2F`, and
the segments are joined by slashes; a pathname that fails to decode is kept as it is. -/
def decodePath (value : String) : String :=
  match decodeSegments [] value.data with
  | some cs => String.mk cs
  | none => value

/-- The pathname the routes are matched against: the location pathname, `/` when it
is empty, percent-decoded. -/
def decodedPathname (pathname : String) : String :=
  decodePath (if pathname = "" then "/" else pathname)

/-- The views of the routes that match a location pathname, in table order. -/
def matchRoutes (pathname : String) : List View :=
  (routes.filter (fun r => matchPath r.1 (decodedPathname pathname))).map (fun r => r.2)

/-- The view that `Routes` selects for a location pathname, if any. The router takes
the best ranked matching route; at most one route of this table matches a given
pathname (`matchRoutes_length_le_one`), so the first match in table order is that
route. -/
def selectView (pathname : String) : Option View :=
  (matchRoutes pathname).head?

/-- What `App.jsx` imports from outside the four source files: the two image
assets and the rendered output of the five page components whose files are not
part of the sources. -/
structure Imports where
  logo : String
  graderImg : String
  Notes : Node (Bool → Bool)
  Chat : Node (Bool → Bool)
  Math : Node (Bool → Bool)
  Speak : Node (Bool → Bool)
  Discussion : Node (Bool → Bool)

/-- The `element` of a route, rendered; `isModalOpen` is the Dashboard's state. -/
def View.render (env : Imports) (isModalOpen : Bool) : View → Node (Bool → Bool)
  | .Dashboard => Rubiqs.Dashboard env.logo env.graderImg isModalOpen
  | .Notes => env.Notes
  | .Chat => env.Chat
  | .Math => env.Math
  | .Speak => env.Speak
  | .Grader => Rubiqs.Grader
  | .Discussion => env.Discussion

/-- The component `App()` at a location pathname: `Routes` renders the element of the selected
route, and `null` when no route matches. -/
def App (env : Imports) (isModalOpen : Bool) (pathname : String) : Node (Bool → Bool) :=
  match selectView pathname with
  | some v => v.render env isModalOpen
  | none => .null

/-- A pathname with letter case and trailing slashes removed: lower-cased, trailing
slashes dropped, and `/` for what is then empty. -/
def canonPath (pathname : String) : String :=
  let cs := stripTrailingSlashes (pathname.toList.map Char.toLower)
  String.mk (if cs = [] then ['/'] else cs)

/-- A callback on a state `σ`, instrumented with a counter of its calls. -/
def counted {σ : Type} (f : σ → σ) : Nat × σ → Nat × σ :=
  fun w => (w.1 + 1, f w.2)

/-! ## Dispatch runs only handlers of the tree -/

theorem Node.mem_handlers_elem {H : Type} (t : String) (a : List (String × String))
    (o : Option H) (cs : List (Node H)) (h : H) :
    h ∈ ((Node.elem t a o cs).elements).filterMap Node.onClick ↔
      o = some h ∨ h ∈ (Node.elementsList cs).filterMap Node.onClick := by
  rw [Node.elements, List.filterMap_cons]
  cases o with
  | none => simp [Node.onClick]
  | some v =>
    simp only [Node.onClick, List.mem_cons, Option.some.injEq]
    constructor
    · rintro (e | e)
      · exact Or.inl e.symm
      · exact Or.inr e
    · rintro (e | e)
      · exact Or.inl e.symm
      · exact Or.inr e

mutual
theorem Node.mem_of_dispatch {H : Type} :
    ∀ (n : Node H) (p : List Nat) (hs : List H),
      n.dispatch p = some hs → ∀ h ∈ hs, h ∈ (n.elements).filterMap Node.onClick
  | .null, _, hs, e => by simp [Node.dispatch] at e
  | .text _, [], hs, e => by
      simp [Node.dispatch] at e
      subst e
      simp
  | .text _, _ :: _, hs, e => by simp [Node.dispatch] at e
  | .elem t a o cs, [], hs, e => by
      simp [Node.dispatch] at e
      subst e
      intro h hh
      rw [Node.mem_handlers_elem]
      left
      cases o <;> simp_all
  | .elem t a o cs, i :: p, hs, e => by
      simp [Node.dispatch] at e
      obtain ⟨hs0, e0, rfl⟩ := e
      intro h hh
      rw [Node.mem_handlers_elem]
      rw [List.mem_append] at hh
      rcases hh with hh | hh
      · exact Or.inr (Node.mem_of_dispatchList cs i p hs0 e0 h hh)
      · left
        cases o <;> simp_all
  | .frag cs, [], hs, e => by
      simp [Node.dispatch] at e
      subst e
      simp
  | .frag cs, i :: p, hs, e => by
      simp [Node.dispatch] at e
      intro h hh
      rw [Node.elements]
      exact Node.mem_of_dispatchList cs i p hs e h hh
theorem Node.mem_of_dispatchList {H : Type} :
    ∀ (cs : List (Node H)) (i : Nat) (p : List Nat) (hs : List H),
      Node.dispatchList cs i p = some hs →
        ∀ h ∈ hs, h ∈ (Node.elementsList cs).filterMap Node.onClick
  | [], _, _, hs, e => by simp [Node.dispatchList] at e
  | c :: cs, 0, p, hs, e => by
      simp [Node.dispatchList] at e
      intro h hh
      have := Node.mem_of_dispatch c p hs e h hh
      simp only [Node.elementsList, List.filterMap_append, List.mem_append]
      exact Or.inl this
  | c :: cs, i + 1, p, hs, e => by
      simp [Node.dispatchList] at e
      intro h hh
      have := Node.mem_of_dispatchList cs i p hs e h hh
      simp only [Node.elementsList, List.filterMap_append, List.mem_append]
      exact Or.inr this
end

/-- A click runs only handlers that are attached somewhere in the tree. -/
theorem Node.dispatch_subset_handlers {H : Type} (n : Node H) (p : List Nat) (hs : List H)
    (e : n.dispatch p = some hs) : ∀ h ∈ hs, h ∈ n.handlers :=
  Node.mem_of_dispatch n p hs e

/-- A property of the state that every handler of the tree preserves survives a
click anywhere. -/
theorem click_preserves {σ : Type} (P : σ → Prop) (n : Node (σ → σ))
    (hP : ∀ h ∈ n.handlers, ∀ s, P s → P (h s)) (path : List Nat) (s : σ) (hs : P s) :
    P (click n path s) := by
  unfold click
  cases e : n.dispatch path with
  | none => simpa using hs
  | some l =>
    have hl : ∀ h ∈ l, ∀ s, P s → P (h s) :=
      fun h hh => hP h (Node.dispatch_subset_handlers n path l e h hh)
    simp only [runHandlers]
    clear e
    induction l generalizing s with
    | nil => simpa using hs
    | cons a l ih =>
      simp only [List.foldl_cons]
      exact ih (a s) (hl a (by simp) s hs) (fun h hh => hl h (by simp [hh]))

/-! ## Route matching ignores letter case and trailing slashes -/

theorem toNat_ofNat_small (n : Nat) (h : n < 55296) : (Char.ofNat n).toNat = n := by
  have hv : n.isValidChar := Or.inl h
  unfold Char.ofNat
  rw [dif_pos hv]
  rfl

theorem char_eq_of_toNat_eq (c d : Char) (h : c.toNat = d.toNat) : c = d := by
  rw [← Char.ofNat_toNat c, ← Char.ofNat_toNat d, h]

theorem toNat_toLower (c : Char) :
    c.toLower.toNat = if 65 ≤ c.toNat ∧ c.toNat ≤ 90 then c.toNat + 32 else c.toNat := by
  unfold Char.toLower
  simp only [ge_iff_le]
  split
  · rw [toNat_ofNat_small _ (by omega)]
  · rfl

theorem toNat_toUpper (c : Char) :
    c.toUpper.toNat = if 97 ≤ c.toNat ∧ c.toNat ≤ 122 then c.toNat - 32 else c.toNat := by
  unfold Char.toUpper
  simp only [ge_iff_le]
  split
  · rw [toNat_ofNat_small _ (by omega)]
  · rfl

theorem toUpper_eq_iff (c d : Char) : c.toUpper = d.toUpper ↔ c.toLower = d.toLower := by
  constructor
  · intro h
    apply char_eq_of_toNat_eq
    have := congrArg Char.toNat h
    rw [toNat_toUpper, toNat_toUpper] at this
    rw [toNat_toLower, toNat_toLower]
    split_ifs at this ⊢ <;> omega
  · intro h
    apply char_eq_of_toNat_eq
    have := congrArg Char.toNat h
    rw [toNat_toLower, toNat_toLower] at this
    rw [toNat_toUpper, toNat_toUpper]
    split_ifs at this ⊢ <;> omega

theorem toLower_eq_slash (c : Char) : c.toLower = '/' ↔ c = '/' := by
  constructor
  · intro h
    apply char_eq_of_toNat_eq
    have := congrArg Char.toNat h
    rw [toNat_toLower] at this
    have e : ('/' : Char).toNat = 47 := rfl
    rw [e] at this ⊢
    split_ifs at this <;> omega
  · rintro rfl
    rfl
theorem all_slash_iff (cs : List Char) :
    cs.all (fun c => c == '/') = true ↔ ∃ k, cs.map Char.toLower = List.replicate k '/' := by
  induction cs with
  | nil => exact ⟨fun _ => ⟨0, rfl⟩, fun _ => rfl⟩
  | cons c cs ih =>
    simp only [List.all_cons, Bool.and_eq_true, beq_iff_eq, List.map_cons]
    constructor
    · rintro ⟨rfl, h⟩
      obtain ⟨k, hk⟩ := ih.mp h
      exact ⟨k + 1, by rw [hk]; rfl⟩
    · rintro ⟨k, hk⟩
      cases k with
      | zero => simp at hk
      | succ k =>
        rw [List.replicate_succ, List.cons.injEq] at hk
        exact ⟨(toLower_eq_slash c).mp hk.1, ih.mpr ⟨k, hk.2⟩⟩

theorem matchesFrom_iff (ds cs : List Char) :
    matchesFrom ds cs = true ↔
      ∃ k, cs.map Char.toLower = ds.map Char.toLower ++ List.replicate k '/' := by
  induction ds generalizing cs with
  | nil => simpa [matchesFrom] using all_slash_iff cs
  | cons d ds ih =>
    cases cs with
    | nil => simp [matchesFrom]
    | cons c cs =>
      simp only [matchesFrom, Bool.and_eq_true, beq_iff_eq, List.map_cons, List.cons_append,
        List.cons.injEq, toUpper_eq_iff, ih]
      constructor
      · rintro ⟨h, k, hk⟩
        exact ⟨k, h, hk⟩
      · rintro ⟨k, h, hk⟩
        exact ⟨h, k, hk⟩

theorem stripTrailingSlashes_append_replicate (xs : List Char) (k : Nat) :
    stripTrailingSlashes (xs ++ List.replicate k '/') = stripTrailingSlashes xs := by
  unfold stripTrailingSlashes
  rw [List.reverse_append, List.reverse_replicate]
  congr 1
  induction k with
  | zero => rfl
  | succ k ih => rw [List.replicate_succ, List.cons_append, List.dropWhile_cons]; simp [ih]

theorem dropWhile_slash_decomp (ys : List Char) :
    ∃ k, ys = List.replicate k '/' ++ ys.dropWhile (fun c => c == '/') := by
  induction ys with
  | nil => exact ⟨0, rfl⟩
  | cons y ys ih =>
    by_cases h : y = '/'
    · subst h
      obtain ⟨k, hk⟩ := ih
      refine ⟨k + 1, ?_⟩
      rw [List.dropWhile_cons]
      simp only [beq_self_eq_true, if_true, List.replicate_succ, List.cons_append]
      rw [← hk]
    · refine ⟨0, ?_⟩
      rw [List.dropWhile_cons]
      simp [h]

theorem stripTrailingSlashes_decomp (xs : List Char) :
    ∃ k, xs = stripTrailingSlashes xs ++ List.replicate k '/' := by
  obtain ⟨k, hk⟩ := dropWhile_slash_decomp xs.reverse
  refine ⟨k, ?_⟩
  have := congrArg List.reverse hk
  rw [List.reverse_reverse, List.reverse_append, List.reverse_replicate] at this
  exact this

/-- A lower-case pattern matches exactly the pathnames that, lower-cased, are the
pattern followed by slashes. -/
theorem matchesFrom_iff_strip (ds cs : List Char) (hl : ds.map Char.toLower = ds) :
    matchesFrom ds cs = true ↔
      ∃ k, cs.map Char.toLower = ds ++ List.replicate k '/' := by
  rw [matchesFrom_iff, hl]

theorem strip_eq_of_match (ds cs : List Char) (hl : ds.map Char.toLower = ds)
    (hs : stripTrailingSlashes ds = ds) (h : matchesFrom ds cs = true) :
    stripTrailingSlashes (cs.map Char.toLower) = ds := by
  obtain ⟨k, hk⟩ := (matchesFrom_iff_strip ds cs hl).mp h
  rw [hk, stripTrailingSlashes_append_replicate, hs]

theorem match_of_strip_eq (ds cs : List Char) (hl : ds.map Char.toLower = ds)
    (h : stripTrailingSlashes (cs.map Char.toLower) = ds) : matchesFrom ds cs = true := by
  obtain ⟨k, hk⟩ := stripTrailingSlashes_decomp (cs.map Char.toLower)
  rw [h] at hk
  exact (matchesFrom_iff_strip ds cs hl).mpr ⟨k, hk⟩

/-- The root pattern matches exactly the non-empty pathnames made of slashes. -/
theorem matchesFrom_root_iff (cs : List Char) :
    matchesFrom ['/'] cs = true ↔
      cs ≠ [] ∧ stripTrailingSlashes (cs.map Char.toLower) = [] := by
  rw [matchesFrom_iff]
  constructor
  · rintro ⟨k, hk⟩
    refine ⟨?_, ?_⟩
    · rintro rfl
      simp at hk
    · have e : List.map Char.toLower ['/'] ++ List.replicate k '/'
          = [] ++ List.replicate (k + 1) '/' := rfl
      rw [hk, e, stripTrailingSlashes_append_replicate]
      rfl
  · rintro ⟨hne, hs⟩
    obtain ⟨k, hk⟩ := stripTrailingSlashes_decomp (cs.map Char.toLower)
    rw [hs, List.nil_append] at hk
    cases k with
    | zero =>
      simp at hk
      exact absurd hk hne
    | succ k => exact ⟨k, by rw [hk]; rfl⟩

/-- The character form of `canonPath`. -/
theorem canonPath_data (p : String) :
    (canonPath p).data =
      if stripTrailingSlashes (p.data.map Char.toLower) = [] then ['/']
      else stripTrailingSlashes (p.data.map Char.toLower) := rfl

/-- Stripping never leaves a trailing slash behind: the result is not `/`. -/
theorem stripTrailingSlashes_ne_slash (xs : List Char) : stripTrailingSlashes xs ≠ ['/'] := by
  intro h
  have h2 : stripTrailingSlashes (stripTrailingSlashes xs) = stripTrailingSlashes xs := by
    obtain ⟨k, hk⟩ := stripTrailingSlashes_decomp xs
    conv_rhs => rw [hk, stripTrailingSlashes_append_replicate]
  rw [h] at h2
  exact absurd h2 (by decide)

/-- A route other than the root matches a pathname exactly when the pathname's
canonical form is the route's path. -/
theorem matchPath_iff_canon (r p : String) (hr : r ∈ recognizedPaths) (hroot : r ≠ "/") :
    matchPath r p = true ↔ canonPath p = r := by
  have key : compilePath r = r.data ∧ r.data.map Char.toLower = r.data ∧
      stripTrailingSlashes r.data = r.data ∧ r.data ≠ [] ∧ r.data ≠ ['/'] := by
    revert r
    decide
  obtain ⟨hc, hl, hs, hne, hns⟩ := key
  unfold matchPath
  rw [hc]
  constructor
  · intro h
    have e := strip_eq_of_match r.data p.data hl hs h
    apply String.ext
    rw [canonPath_data, e, if_neg hne]
  · intro h
    apply match_of_strip_eq r.data p.data hl
    have e := congrArg String.data h
    rw [canonPath_data] at e
    by_cases hnil : stripTrailingSlashes (p.data.map Char.toLower) = []
    · rw [if_pos hnil] at e
      exact absurd e.symm hns
    · rw [if_neg hnil] at e
      exact e

/-- The root route matches a non-empty pathname exactly when its canonical form is `/`. -/
theorem matchPath_root_iff_canon (p : String) (hp : p ≠ "") :
    matchPath "/" p = true ↔ canonPath p = "/" := by
  have hc : compilePath "/" = ['/'] := by decide
  have hd : p.data ≠ [] := fun h => hp (String.ext h)
  unfold matchPath
  rw [hc, matchesFrom_root_iff]
  constructor
  · rintro ⟨_, h⟩
    have h2 : stripTrailingSlashes (p.data.map Char.toLower) = [] := h
    apply String.ext
    rw [canonPath_data, if_pos h2]
  · intro h
    refine ⟨hd, ?_⟩
    have e := congrArg String.data h
    rw [canonPath_data] at e
    by_cases hnil : stripTrailingSlashes (p.data.map Char.toLower) = []
    · exact hnil
    · rw [if_neg hnil] at e
      exact absurd e (stripTrailingSlashes_ne_slash _)

/-- A recognized route that matches a pathname has the pathname's canonical form as
its path. -/
theorem canon_of_matchPath (r q : String) (hr : r ∈ recognizedPaths)
    (h : matchPath r q = true) : canonPath q = r := by
  by_cases hq : q = ""
  · subst hq
    revert r
    decide
  · by_cases hroot : r = "/"
    · subst hroot
      exact (matchPath_root_iff_canon q hq).mp h
    · exact (matchPath_iff_canon r q hr hroot).mp h

/-- A recognized route matches every non-empty pathname whose canonical form is its
path. -/
theorem matchPath_of_canon (r q : String) (hr : r ∈ recognizedPaths) (hq : q ≠ "")
    (h : canonPath q = r) : matchPath r q = true := by
  by_cases hroot : r = "/"
  · subst hroot
    exact (matchPath_root_iff_canon q hq).mpr h
  · exact (matchPath_iff_canon r q hr hroot).mpr h

/-- The canonical form of the matched pathname is that of the decoded location
pathname, also for the empty one. -/
theorem canonPath_decodedPathname (p : String) :
    canonPath (decodedPathname p) = canonPath (decodePath p) := by
  unfold decodedPathname
  by_cases hp : p = ""
  · subst hp
    decide
  · rw [if_neg hp]

/-- Every route that matches a pathname has the canonical form of the decoded
pathname as its path. -/
theorem canon_of_mem_matching (p : String) (r : String × View) (hr : r ∈ routes)
    (h : matchPath r.1 (decodedPathname p) = true) : r.1 = canonPath (decodePath p) := by
  rw [← canonPath_decodedPathname]
  exact (canon_of_matchPath r.1 _ (List.mem_map_of_mem _ hr) h).symm

/-- The routes whose path is a given string are at most one. -/
theorem routes_with_path_le_one (c : String) :
    (routes.filter (fun r => r.1 == c)).length ≤ 1 := by
  by_cases hc : c ∈ recognizedPaths
  · revert c
    decide
  · have : routes.filter (fun r => r.1 == c) = [] := by
      rw [List.filter_eq_nil_iff]
      intro r hr hrc
      apply hc
      rw [← (beq_iff_eq).mp hrc]
      exact List.mem_map_of_mem _ hr
    rw [this]
    exact Nat.zero_le 1

/-- At most one route matches a pathname. -/
theorem matchRoutes_length_le_one (p : String) : (matchRoutes p).length ≤ 1 := by
  unfold matchRoutes
  rw [List.length_map]
  have e : routes.filter (fun r => matchPath r.1 (decodedPathname p))
      = (routes.filter (fun r => r.1 == canonPath (decodePath p))).filter
          (fun r => matchPath r.1 (decodedPathname p)) := by
    rw [List.filter_filter]
    apply List.filter_congr
    intro r hr
    cases hm : matchPath r.1 (decodedPathname p)
    · rfl
    · have := canon_of_mem_matching p r hr hm
      simp [this]
  rw [e]
  exact le_trans (List.length_filter_le _ _) (routes_with_path_le_one _)

/-- A non-empty pathname that decodes to a recognized path, up to letter case and
trailing slashes, matches exactly one route, the one with that path. -/
theorem matched_path_selects_one (p : String) (hp : decodedPathname p ≠ "")
    (h : canonPath (decodePath p) ∈ recognizedPaths) :
    (matchRoutes p).length = 1 ∧ ∀ v ∈ matchRoutes p, (canonPath (decodePath p), v) ∈ routes := by
  have e : matchRoutes p =
      (routes.filter (fun r => r.1 == canonPath (decodePath p))).map (fun r => r.2) := by
    unfold matchRoutes
    congr 1
    apply List.filter_congr
    intro r hr
    cases hm : matchPath r.1 (decodedPathname p)
    · symm
      simp only [beq_eq_false_iff_ne, ne_eq]
      intro hc
      have := matchPath_of_canon r.1 (decodedPathname p) (List.mem_map_of_mem _ hr) hp
        (by rw [canonPath_decodedPathname, hc])
      rw [hm] at this
      exact absurd this (by decide)
    · have := canon_of_mem_matching p r hr hm
      simp [this]
  rw [e]
  generalize canonPath (decodePath p) = c at h
  revert c
  decide

/-- Percent-encoded pathnames are decoded before they are matched, and a pathname that
does not decode is matched as it is. -/
theorem percent_encoded_paths :
    selectView "/gr%61der" = some View.Grader ∧ selectView "/%67rader" = some View.Grader ∧
    selectView "/spea%4B" = some View.Speak ∧ selectView "/grader%2F" = none ∧
    selectView "/grader/%" = none := by
  decide

/-! ## The route table on the recognized paths -/

/-- C1: each of the seven recognized paths matches exactly one route, the one whose
view is named for it, `App` renders that view's element there, and two recognized
paths that select the same view are the same path. -/
theorem route_table_recognized :
    recognizedPaths = ["/", "/notes", "/chat", "/math", "/speak", "/grader", "/discussion"] ∧
    (matchRoutes "/" = [View.Dashboard] ∧ matchRoutes "/notes" = [View.Notes] ∧
      matchRoutes "/chat" = [View.Chat] ∧ matchRoutes "/math" = [View.Math] ∧
      matchRoutes "/speak" = [View.Speak] ∧ matchRoutes "/grader" = [View.Grader] ∧
      matchRoutes "/discussion" = [View.Discussion]) ∧
    (∀ r ∈ routes, matchRoutes r.1 = [r.2] ∧ selectView r.1 = some r.2) ∧
    (∀ p ∈ recognizedPaths, ∀ q ∈ recognizedPaths, selectView p = selectView q → p = q) ∧
    (∀ (env : Imports) (isModalOpen : Bool), ∀ r ∈ routes,
      App env isModalOpen r.1 = r.2.render env isModalOpen) := by
  refine ⟨by decide, by decide, by decide, by decide, ?_⟩
  intro env isModalOpen r hr
  have h : selectView r.1 = some r.2 := by
    revert r
    decide
  simp [App, h]

/-! ## Modal -/

/-- C2: a closed Modal returns `null` whatever the close callback is: its output has
no element at all, in particular none with role `dialog`. -/
theorem modal_closed_renders_nothing {H : Type} (onClose : H) :
    Modal false onClose = Node.null ∧
    (Modal false onClose).elements = [] ∧
    (Modal false onClose).withRole "dialog" = [] :=
  ⟨rfl, rfl, rfl⟩

/-- C3: an open Modal contains exactly one element with role `dialog`; its
`aria-labelledby` is the `id` of a heading inside it, the only element inside it
with that id; and it contains exactly one button, the only button of the output. -/
theorem modal_open_dialog {H : Type} (onClose : H) :
    ∃ d hd b i,
      (Modal true onClose).withRole "dialog" = [d] ∧
      d.attr "aria-labelledby" = some i ∧
      d.descendants.filter (fun e => e.attr "id" == some i) = [hd] ∧
      hd.isHeading = true ∧
      d.buttons = [b] ∧
      (Modal true onClose).buttons = [b] :=
  ⟨_, _, _, _, rfl, rfl, rfl, rfl, rfl, rfl⟩

/-- C4: in an open Modal the only button sits at child path `[0, 2]`, its `onClick`
is the supplied `onClose`, a click on it runs `onClose` and nothing else, no other
handler is attached anywhere in the output, and with `onClose` instrumented by a call
counter one click raises the counter by one and applies `onClose` once. -/
theorem modal_close_invokes_onClose {σ : Type} (onClose : σ → σ) :
    (∃ b, (Modal true onClose).buttons = [b] ∧
      (Modal true onClose).nodeAt [0, 2] = some b ∧
      b.onClick = some onClose) ∧
    (Modal true onClose).dispatch [0, 2] = some [onClose] ∧
    (Modal true onClose).handlers = [onClose] ∧
    (∀ (calls : Nat) (s : σ),
      click (Modal true (counted onClose)) [0, 2] (calls, s) = (calls + 1, onClose s)) :=
  ⟨⟨_, rfl, rfl, rfl⟩, rfl, rfl, fun _ _ => rfl⟩

/-! ## Grader -/

/-- C6: at `/grader` the App renders the Grader view; its only heading reads
"Rubiqs Grader", it has exactly one link, to `/`, and `/` selects the Dashboard. -/
theorem grader_route_and_back_link (env : Imports) (isModalOpen : Bool) :
    selectView "/grader" = some View.Grader ∧
    App env isModalOpen "/grader" = Grader ∧
    (Grader : Node (Bool → Bool)).headings.map Node.textContent = ["Rubiqs Grader"] ∧
    (∃ l, (Grader : Node (Bool → Bool)).links = [l] ∧ l.attr "to" = some "/") ∧
    (Grader : Node (Bool → Bool)).linkTargets = ["/"] ∧
    matchRoutes "/" = [View.Dashboard] ∧
    App env isModalOpen "/" = Dashboard env.logo env.graderImg isModalOpen := by
  have h1 : selectView "/grader" = some View.Grader := by decide
  have h2 : selectView "/" = some View.Dashboard := by decide
  refine ⟨h1, ?_, by decide, ⟨_, rfl, rfl⟩, by decide, by decide, ?_⟩
  · simp [App, h1, View.render]
  · simp [App, h2, View.render]

/-! ## Dashboard -/

/-- C8: whatever the modal state, the Dashboard's tile container holds exactly one
link, to `/grader`; it is the only link of the whole output; and `/grader` is a
recognized path whose only matching route is the Grader's. -/
theorem dashboard_single_tile (logo graderImg : String) (isModalOpen : Bool) :
    (∃ grid l, (Dashboard logo graderImg isModalOpen).withClass "tile-container" = [grid] ∧
      grid.links = [l] ∧ l.attr "to" = some "/grader" ∧
      (Dashboard logo graderImg isModalOpen).links = [l]) ∧
    (Dashboard logo graderImg isModalOpen).linkTargets = ["/grader"] ∧
    "/grader" ∈ recognizedPaths ∧
    matchRoutes "/grader" = [View.Grader] := by
  refine ⟨?_, ?_, by decide, by decide⟩
  · cases isModalOpen
    · exact ⟨_, _, rfl, rfl, rfl, rfl⟩
    · exact ⟨_, _, rfl, rfl, rfl, rfl⟩
  · cases isModalOpen <;> rfl

/-- C10: `hasTool` answers `true` for every tool, and the Dashboard's output does not
depend on it: with any other predicate in its place the output is the same. -/
theorem hasTool_stub_no_effect :
    (∀ tool : String, hasTool tool = true) ∧
    (∀ (p : String → Bool) (logo graderImg : String) (isModalOpen : Bool),
      DashboardWith p logo graderImg isModalOpen = Dashboard logo graderImg isModalOpen) ∧
    (∀ (logo graderImg : String) (isModalOpen : Bool),
      DashboardWith (fun _ => false) logo graderImg isModalOpen =
        DashboardWith hasTool logo graderImg isModalOpen) :=
  ⟨fun _ => rfl, fun _ _ _ _ => rfl, fun _ _ _ => rfl⟩

/-- C5: the modal state starts closed; every handler the Dashboard attaches, in
either state, sets it to closed; so after any sequence of clicks on a freshly mounted
Dashboard the state is closed and the render has no element with role `dialog`. -/
theorem dashboard_modal_stays_closed (logo graderImg : String) :
    Dashboard.initial = false ∧
    (∀ (isModalOpen : Bool), ∀ h ∈ (Dashboard logo graderImg isModalOpen).handlers,
      ∀ s, h s = false) ∧
    (∀ events : List (List Nat),
      Dashboard.run logo graderImg events = false ∧
      (Dashboard logo graderImg (Dashboard.run logo graderImg events)).withRole "dialog"
        = []) := by
  have hh : ∀ (isModalOpen : Bool), ∀ h ∈ (Dashboard logo graderImg isModalOpen).handlers,
      ∀ s, h s = false := by
    intro b h hmem s
    cases b
    · have e : (Dashboard logo graderImg false).handlers = [] := rfl
      rw [e] at hmem
      simp at hmem
    · have e : (Dashboard logo graderImg true).handlers = [setModalOpen false] := rfl
      rw [e] at hmem
      simp at hmem
      subst hmem
      rfl
  have hstep : ∀ path, Dashboard.step logo graderImg false path = false := by
    intro path
    exact click_preserves (fun s => s = false) _ (fun h hm s _ => hh false h hm s) path false rfl
  have hrun : ∀ events : List (List Nat),
      events.foldl (Dashboard.step logo graderImg) false = false := by
    intro events
    induction events with
    | nil => rfl
    | cons e es ih => rw [List.foldl_cons, hstep e, ih]
  refine ⟨rfl, hh, ?_⟩
  intro events
  have hr : Dashboard.run logo graderImg events = false := hrun events
  exact ⟨hr, by rw [hr]; rfl⟩

/-- C9: with the modal state open the Dashboard's render contains the dialog; a
click on the dialog's close button (child path `[2, 0, 2]`) runs exactly the
Dashboard's close handler and leaves the state closed, so that the next render has
no dialog; and the close handler applied to the closed state leaves it closed. -/
theorem dashboard_modal_close_transition (logo graderImg : String) :
    (∃ d b, (Dashboard logo graderImg true).withRole "dialog" = [d] ∧
      d.buttons = [b] ∧
      (Dashboard logo graderImg true).nodeAt [2, 0, 2] = some b ∧
      b.onClick = some (setModalOpen false)) ∧
    (Dashboard logo graderImg true).dispatch [2, 0, 2] = some [setModalOpen false] ∧
    Dashboard.step logo graderImg true [2, 0, 2] = false ∧
    (Dashboard logo graderImg (Dashboard.step logo graderImg true [2, 0, 2])).withRole
      "dialog" = [] ∧
    setModalOpen false true = false ∧
    setModalOpen false false = false ∧
    (∀ path, Dashboard.step logo graderImg false path = false) := by
  refine ⟨⟨_, _, rfl, rfl, rfl, rfl⟩, rfl, rfl, rfl, rfl, rfl, ?_⟩
  intro path
  refine click_preserves (fun s => s = false) _ ?_ path false rfl
  intro h hm s _
  have e : (Dashboard logo graderImg false).handlers = [] := rfl
  rw [e] at hm
  simp at hm

/-! ## Pathnames outside the route table -/

/-- C7, as stated, fails: `/GRADER` and `/grader/` are none of the seven recognized
paths, yet the Grader route matches both, so a pathname outside the literal list
need not render nothing. -/
theorem unrecognized_literal_still_routed :
    "/GRADER" ∉ recognizedPaths ∧ selectView "/GRADER" = some View.Grader ∧
    "/grader/" ∉ recognizedPaths ∧ selectView "/grader/" = some View.Grader ∧
    ¬ (∀ p : String, p ∉ recognizedPaths → selectView p = none) := by
  refine ⟨by decide, by decide, by decide, by decide, ?_⟩
  intro h
  exact absurd (h "/GRADER" (by decide)) (by decide)

/-- C7, amended: a pathname that, percent-decoded and with letter case and trailing
slashes ignored, is none of the seven recognized paths matches no route, so no view is
selected and the App renders `null`; the table has no wildcard or fallback entry. -/
theorem unmatched_path_renders_nothing (env : Imports) (isModalOpen : Bool) (p : String)
    (h : canonPath (decodePath p) ∉ recognizedPaths) :
    matchRoutes p = [] ∧ selectView p = none ∧ App env isModalOpen p = Node.null := by
  have hm : matchRoutes p = [] := by
    unfold matchRoutes
    rw [List.map_eq_nil_iff, List.filter_eq_nil_iff]
    intro r hr hc
    apply h
    rw [← canon_of_mem_matching p r hr hc]
    exact List.mem_map_of_mem _ hr
  have hsel : selectView p = none := by
    unfold selectView
    rw [hm]
    rfl
  refine ⟨hm, hsel, ?_⟩
  unfold App
  rw [hsel]

/-- The amended C7 at the pathname `/settings`. -/
theorem unmatched_path_renders_nothing_witness :
    canonPath (decodePath "/settings") ∉ recognizedPaths ∧ selectView "/settings" = none :=
  ⟨by decide,
    (unmatched_path_renders_nothing
      ⟨"logo.png", "grader.png", .null, .null, .null, .null, .null⟩ false "/settings"
      (by decide)).2.1⟩

end Rubiqs
